import Mathlib

/-!
Verification of the `smsh` shell core (src/main.c) against its
natural-language specification.

The C code is shallowly embedded: C strings become `List Char`, the
`strtok_r` tokenizer becomes `splitTok`, `parse_commands` becomes a pure
function from the input line to `Except` (the `error` payload is the
offending token named in the C error message, `NULL` return in C).
Builtins (`cd`, `checkEnv`) and the post-execution bookkeeping of `main`
(foreground wait, elapsed-time report) are embedded as pure functions of
the data they inspect; OS effects (chdir success, kill success, waitpid
status) are inputs to those functions.
-/

namespace Smsh

/-- Worker for `splitTok`: `acc` holds the characters of the token
currently being scanned, in reverse. -/
def splitTokAux (d : Char) : List Char → List Char → List (List Char)
  | [], acc => if acc = [] then [] else [acc.reverse]
  | c :: cs, acc =>
      if c = d then
        if acc = [] then splitTokAux d cs []
        else acc.reverse :: splitTokAux d cs []
      else splitTokAux d cs (c :: acc)

/-- `strtok_r` semantics on one delimiter character: the maximal non-empty
runs of non-delimiter characters, in order.  Models the repeated
`strtok_r(NULL, delim, ...)` calls in `parse_commands` (src/main.c):
empty segments between consecutive delimiters are skipped. -/
def splitTok (d : Char) (l : List Char) : List (List Char) :=
  splitTokAux d l []

/-- The pipe-level split of `parse_commands`: `strtok_r(input, "|", ...)`. -/
def splitPipes (l : List Char) : List (List Char) := splitTok '|' l

/-- The whitespace-level split of `parse_commands`: `strtok_r(cmd_str, " ", ...)`. -/
def splitSpaces (l : List Char) : List (List Char) := splitTok ' ' l

/-- One stage of a pipeline: the `Command` struct in main.h
(`num_args` is `args.length`; the trailing NULL sentinel of the C
array is not part of the model). -/
structure Command where
  args : List (List Char)
deriving DecidableEq, Repr

/-- A parsed input line: the `CommandList` struct in main.h. -/
structure CommandList where
  cmds : List Command
  bg : Bool
deriving DecidableEq, Repr

/-- The background-marker token `"&"`. -/
def ampTok : List Char := ['&']

/-- The inner token loop of `parse_commands` over one stage's tokens,
threading the `commands->bg` flag.  A token seen while `bg` is already
set reproduces the C error path (free everything, print the offending
token, return NULL): here `.error` carrying that token.  A token equal
to `"&"` sets `bg` and is not added to the argument list; any other
token is appended. -/
def parseArgs (bg : Bool) : List (List Char) →
    Except (List Char) (List (List Char) × Bool)
  | [] => .ok ([], bg)
  | t :: ts =>
      if bg then .error t
      else if t = ampTok then parseArgs true ts
      else
        match parseArgs bg ts with
        | .error e => .error e
        | .ok (args, bg2) => .ok (t :: args, bg2)

/-- The outer stage loop of `parse_commands`: each pipe-separated segment
is tokenized on spaces and becomes one `Command` (pushed even when it has
no tokens, exactly as the C code pushes `command` after the inner loop). -/
def parseStages (bg : Bool) : List (List Char) →
    Except (List Char) (List Command × Bool)
  | [] => .ok ([], bg)
  | seg :: rest =>
      match parseArgs bg (splitSpaces seg) with
      | .error e => .error e
      | .ok (args, bg2) =>
          match parseStages bg2 rest with
          | .error e => .error e
          | .ok (cmds, bg3) => .ok (⟨args⟩ :: cmds, bg3)

/-- `parse_commands` (src/main.c:137-214): split the line on `|`, then each
segment on spaces; `&` tokens set the background flag; any token after a
`&` aborts the parse with an error naming that token (the C code frees all
stages and returns NULL). -/
def parse_commands (input : List Char) : Except (List Char) CommandList :=
  match parseStages false (splitPipes input) with
  | .error e => .error e
  | .ok (cmds, bg) => .ok ⟨cmds, bg⟩

/-! ### Specification-side views of the parser -/

/-- The argument list a stage should get from its token list: the tokens
with a trailing `&` excluded. -/
def stageArgs (toks : List (List Char)) : List (List Char) :=
  if toks.getLast? = some ampTok then toks.dropLast else toks

/-- Whether the final token of the line (the last token of the last
pipe-separated segment) is `&`. -/
def lineBg (segs : List (List Char)) : Bool :=
  match segs.getLast? with
  | none => false
  | some s => decide ((splitSpaces s).getLast? = some ampTok)

/-- A well-formed line in the sense of the spec: `&` appears in no
non-final segment, and within the final segment only as the last token. -/
def wellFormedSegs (segs : List (List Char)) : Prop :=
  (∀ s ∈ segs.dropLast, ampTok ∉ splitSpaces s) ∧
  (∀ s, segs.getLast? = some s → ampTok ∉ (splitSpaces s).dropLast)

instance (segs : List (List Char)) : Decidable (wellFormedSegs segs) := by
  unfold wellFormedSegs; infer_instance

/-- The token the parser's error path names, if any: scanning the token
stream left to right with the background flag `bg`, the first token seen
after the flag is set.  Mirrors the check at the top of the inner loop of
`parse_commands`. -/
def firstBad (bg : Bool) : List (List Char) → Option (List Char)
  | [] => none
  | t :: ts => if bg then some t else firstBad (bg || decide (t = ampTok)) ts

/-- `firstBad` threaded through the stages of a line, exactly as
`commands->bg` persists across segments in `parse_commands`. -/
def firstBadStages (bg : Bool) : List (List Char) → Option (List Char)
  | [] => none
  | s :: ss =>
      match firstBad bg (splitSpaces s) with
      | some t => some t
      | none => firstBadStages (bg || decide (ampTok ∈ splitSpaces s)) ss

/-- The background flag after scanning `segs` starting from flag `b`:
set as soon as any segment contains a `&` token. -/
def stagesBg (b : Bool) (segs : List (List Char)) : Bool :=
  b || segs.any (fun s => decide (ampTok ∈ splitSpaces s))

/-- Join a list of character lists with a single separator character
(the serialization direction of the round-trip property). -/
def joinSep (d : Char) : List (List Char) → List Char
  | [] => []
  | [t] => t
  | t :: t2 :: ts => t ++ d :: joinSep d (t2 :: ts)

/-- Serialize a stage: its arguments joined by spaces. -/
def unparseCmd (c : Command) : List Char := joinSep ' ' c.args

/-- Serialize a pipeline: its stages joined by the pipe character. -/
def unparse (cl : CommandList) : List Char :=
  joinSep '|' (cl.cmds.map unparseCmd)

/-! ### Builtins (src/main.c) -/

/-- `EXIT_SUCCESS`. -/
def EXIT_SUCCESS : Nat := 0

/-- `EXIT_FAILURE`. -/
def EXIT_FAILURE : Nat := 1

/-- Names of the supported built-in functions (main.h). -/
def builtins : List (List Char) := ["exit".data, "cd".data, "checkEnv".data]

/-- Observable outcome of one run of the `cd` builtin.  `attempted` is the
directory handed to `chdir` (`none` when no change is attempted),
`errorReported` records the `perror`/`fprintf` diagnostics, `status` the
returned exit status, and `exitsShell` whether the shell process is
terminated on this path (the source has no `exit()` call in `cd`/`cd_cmd`,
so it is `false` everywhere). -/
structure CdResult where
  attempted : Option (List Char)
  errorReported : Bool
  status : Nat
  exitsShell : Bool
deriving DecidableEq, Repr

/-- The static helper `cd` (src/main.c:353-361): `chdir(dir)`, `perror` on
failure, and `EXIT_FAILURE` returned unconditionally (the source comments
this as a workaround to suppress the running-time print).  `chdirOk` is
the environment's answer to the `chdir` call. -/
def cd (chdirOk : Bool) (dir : List Char) : CdResult :=
  ⟨some dir, !chdirOk, EXIT_FAILURE, false⟩

/-- The built-in `cd` command `cd_cmd` (src/main.c:364-397).  `args` is the
NULL-terminated argv of the builtin modelled as a list, `args[0] = "cd"`;
`home` is the value of `$HOME` (assumed set, as the source comments). -/
def cd_cmd (chdirOk : Bool) (home : List Char) (args : List (List Char)) :
    CdResult :=
  match args.drop 1 with
  | [] => cd chdirOk home
  | a1 :: rest =>
      match rest with
      | _ :: _ => ⟨none, true, EXIT_FAILURE, false⟩
      | [] =>
          match a1 with
          | '~' :: tl => cd chdirOk (home ++ tl)
          | _ => cd chdirOk a1

/-- String constants of the `checkEnv` pipeline (src/main.c:408-411). -/
def printenv_s : List Char := "printenv".data

/-- See `printenv_s`. -/
def sort_s : List Char := "sort".data

/-- See `printenv_s`. -/
def pager_s : List Char := "pager".data

/-- See `printenv_s`. -/
def grep_s : List Char := "grep".data

/-- The pipeline the built-in `checkEnv` command (src/main.c:414-451)
constructs and hands to `exec_commands`.  With an argument
(`args[1] != NULL`) the grep stage gets `"grep"` followed by
`args[1], ..., args[n-1]` (the C loop copies every argv entry from
index 1 up to the counted length); without one the grep stage is absent. -/
def checkEnv_cmd (args : List (List Char)) : CommandList :=
  match args.drop 1 with
  | [] => ⟨[⟨[printenv_s]⟩, ⟨[sort_s]⟩, ⟨[pager_s]⟩], false⟩
  | a1 :: rest =>
      ⟨[⟨[printenv_s]⟩, ⟨grep_s :: a1 :: rest⟩, ⟨[sort_s]⟩, ⟨[pager_s]⟩],
        false⟩

/-! ### Job controller: the tail of the main loop (src/main.c:90-130) -/

/-- A `struct timeval`. -/
structure Timeval where
  tv_sec : Int
  tv_usec : Int
deriving DecidableEq, Repr

/-- A `timeval` as `gettimeofday` produces it. -/
def validTimeval (t : Timeval) : Prop :=
  0 ≤ t.tv_usec ∧ t.tv_usec < 1000000

instance (t : Timeval) : Decidable (validTimeval t) := by
  unfold validTimeval; infer_instance

/-- Chronological order on timevals. -/
def tvLe (a b : Timeval) : Prop :=
  a.tv_sec < b.tv_sec ∨ (a.tv_sec = b.tv_sec ∧ a.tv_usec ≤ b.tv_usec)

instance (a b : Timeval) : Decidable (tvLe a b) := by
  unfold tvLe; infer_instance

/-- The elapsed-time computation of the main loop (src/main.c:125-126):
`1000 * (after.tv_sec - before.tv_sec) + (after.tv_usec - before.tv_usec) / 1000`
in C signed arithmetic; C integer division truncates toward zero, which is
`Int.tdiv`. -/
def time_taken (before after : Timeval) : Int :=
  1000 * (after.tv_sec - before.tv_sec)
    + Int.tdiv (after.tv_usec - before.tv_usec) 1000

/-- The value of `fg_process` after the execute step of the main loop
(src/main.c:90-101): set to `!commands->bg`, then cleared when the single
command's `exec_cmd` returned a failure status. -/
def fg_after_exec (bg : Bool) (execStatus : Nat) : Bool :=
  !bg && decide (execStatus = EXIT_SUCCESS)

/-- What the foreground-wait block at the end of the main loop
(src/main.c:108-130) does. -/
structure FgReport where
  waitTarget : Option Int
  printedMs : Option Int
deriving DecidableEq, Repr

/-- The foreground-wait block (src/main.c:108-130): skipped entirely
unless `fg_process` is set; otherwise `waitpid(pid, &status, 0)` is looped
on the specific foreground `pid`, and the elapsed milliseconds are printed
only when the status shows a normal exit (`WIFEXITED`) with
`EXIT_SUCCESS`. -/
def fg_wait_report (fg_process : Bool) (pid : Int) (wifexited : Bool)
    (wexitstatus : Nat) (before after : Timeval) : FgReport :=
  if fg_process then
    if wifexited && decide (wexitstatus = EXIT_SUCCESS) then
      ⟨some pid, some (time_taken before after)⟩
    else ⟨some pid, none⟩
  else ⟨none, none⟩

/-! ### Signal coordinator (src/main.c:478-517) -/

/-- `SIGINT`. -/
def SIGINT : Nat := 2

/-- `SIGCHLD`. -/
def SIGCHLD : Nat := 17

/-- The process-wide state the handler reads: the globals `fg_process`
and `pid` (src/main.c:4-5). -/
structure ShellSigState where
  fg_process : Bool
  pid : Int
deriving DecidableEq, Repr

/-- Observable outcome of one run of `signal_handler`:
`sigtermSentTo` is the process a `SIGTERM` was successfully forwarded to,
`waited` whether `waitpid` was invoked on it, `jumpedToPrompt` whether the
handler ended in `siglongjmp(prompt_mark, 1)` (the restart checkpoint set
at src/main.c:30), and `shellExited` whether the handler terminated the
shell (no path does). -/
structure SigOutcome where
  sigtermSentTo : Option Int
  waited : Bool
  jumpedToPrompt : Bool
  shellExited : Bool
deriving DecidableEq, Repr

/-- `signal_handler` (src/main.c:478-517).  `killOk` is the environment's
answer to the `kill(pid, SIGTERM)` call; on a failed kill the handler
returns without jumping. -/
def signal_handler (sig : Nat) (st : ShellSigState) (killOk : Bool) :
    SigOutcome :=
  if sig = SIGINT then
    if st.fg_process ∧ st.pid ≠ -1 then
      if killOk then ⟨some st.pid, true, true, false⟩
      else ⟨none, false, false, false⟩
    else ⟨none, false, true, false⟩
  else if sig = SIGCHLD then
    if st.fg_process then ⟨none, false, false, false⟩
    else ⟨none, false, true, false⟩
  else ⟨none, false, false, false⟩

/-! ### Error-propagation policy (src/main.c, §7 of the spec) -/

/-- The error conditions that can arise while the shell handles one input
line, plus the signal-registration step at startup. -/
inductive ErrCondition where
  /-- `&` seen with the background flag already set
      (src/main.c:165-177): stages freed, error printed, NULL returned. -/
  | parseAmpMisuse
  /-- `realloc` returning NULL while growing the argument or command
      buffer (src/main.c:183-207): `perror("realloc"); exit(EXIT_FAILURE)`. -/
  | reallocFail
  /-- `pipe` failing in `exec_commands` (TRY: perror, return). -/
  | pipeFail
  /-- `fork` failing in `exec_cmd`/`exec_commands` (TRY: perror, return). -/
  | forkFail
  /-- `dup2` failing in a spawned child (TRY: perror, return in child). -/
  | dupFail
  /-- `close` failing (TRY: perror, return). -/
  | closeFail
  /-- `execvp` failing in the child (src/main.c:242-247):
      perror then `exit(EXIT_FAILURE)` in the child only. -/
  | execFail
  /-- A builtin usage error such as `cd` with two arguments
      (src/main.c:379-383): message printed, `EXIT_FAILURE` returned. -/
  | builtinUsage
  /-- `sigaction` failing at startup (src/main.c:24-27):
      TRY returns `EXIT_FAILURE` from `main`, terminating the shell. -/
  | sigactionFailStartup
deriving DecidableEq, Repr

/-- How the shell responds to an error condition. -/
inductive ErrResponse where
  /-- Reported; the main loop continues to the next prompt. -/
  | reportContinue
  /-- Reported in the spawned child, which exits; the parent continues. -/
  | childExits
  /-- The shell process itself terminates. -/
  | shellExits
deriving DecidableEq, Repr

/-- The response the source gives to each error condition (see the
constructor doc comments of `ErrCondition` for the code paths). -/
def error_response : ErrCondition → ErrResponse
  | .parseAmpMisuse => .reportContinue
  | .reallocFail => .shellExits
  | .pipeFail => .reportContinue
  | .forkFail => .reportContinue
  | .dupFail => .reportContinue
  | .closeFail => .reportContinue
  | .execFail => .childExits
  | .builtinUsage => .reportContinue
  | .sigactionFailStartup => .shellExits

/-! ## Lemmas: characterization of `parseArgs`/`parseStages` -/

theorem parseArgs_error_of_firstBad (t : List Char) :
    ∀ (toks : List (List Char)) (b : Bool), firstBad b toks = some t →
      parseArgs b toks = .error t
  | [], b, h => by simp [firstBad] at h
  | u :: ts, b, h => by
    cases b with
    | true =>
        simp only [firstBad, if_pos, Option.some.injEq] at h
        simp [parseArgs, h]
    | false =>
        simp only [firstBad, Bool.false_or, if_neg Bool.false_ne_true] at h
        by_cases hu : u = ampTok
        · rw [decide_eq_true hu] at h
          simp [parseArgs, hu, parseArgs_error_of_firstBad t ts true h]
        · rw [decide_eq_false hu] at h
          simp [parseArgs, hu, parseArgs_error_of_firstBad t ts false h]

theorem parseArgs_ok_of_firstBad_none :
    ∀ (toks : List (List Char)) (b : Bool), firstBad b toks = none →
      parseArgs b toks =
        .ok (toks.filter (fun t => decide (t ≠ ampTok)),
             b || decide (ampTok ∈ toks))
  | [], b, _ => by cases b <;> rfl
  | u :: ts, b, h => by
    cases b with
    | true => simp [firstBad] at h
    | false =>
        simp only [firstBad, Bool.false_or, if_neg Bool.false_ne_true] at h
        by_cases hu : u = ampTok
        · rw [decide_eq_true hu] at h
          have := parseArgs_ok_of_firstBad_none ts true h
          simp [parseArgs, hu, this, List.filter_cons]
        · rw [decide_eq_false hu] at h
          have := parseArgs_ok_of_firstBad_none ts false h
          simp [parseArgs, hu, this, List.filter_cons, List.mem_cons,
            Ne.symm hu]

theorem parseStages_error_of_firstBad (t : List Char) :
    ∀ (segs : List (List Char)) (b : Bool), firstBadStages b segs = some t →
      parseStages b segs = .error t
  | [], b, h => by simp [firstBadStages] at h
  | s :: ss, b, h => by
    simp only [firstBadStages] at h
    cases hfb : firstBad b (splitSpaces s) with
    | some u =>
        rw [hfb] at h
        cases h
        simp [parseStages, parseArgs_error_of_firstBad t _ b hfb]
    | none =>
        rw [hfb] at h
        simp only [parseStages, parseArgs_ok_of_firstBad_none _ b hfb]
        rw [parseStages_error_of_firstBad t ss _ h]

theorem parseStages_ok_of_firstBad_none :
    ∀ (segs : List (List Char)) (b : Bool), firstBadStages b segs = none →
      parseStages b segs =
        .ok (segs.map (fun s => ⟨(splitSpaces s).filter
              (fun t => decide (t ≠ ampTok))⟩),
             stagesBg b segs)
  | [], b, _ => by simp [parseStages, stagesBg]
  | s :: ss, b, h => by
    simp only [firstBadStages] at h
    cases hfb : firstBad b (splitSpaces s) with
    | some u => rw [hfb] at h; cases h
    | none =>
        rw [hfb] at h
        have ih := parseStages_ok_of_firstBad_none ss _ h
        simp only [parseStages, parseArgs_ok_of_firstBad_none _ b hfb, ih,
          stagesBg, List.map_cons, List.any_cons]
        rw [Bool.or_assoc]

/-! ## Lemmas: well-formed lines -/

theorem mem_dropLast_or_getLast {α : Type} {a : α} {l : List α}
    (h : a ∈ l) : a ∈ l.dropLast ∨ l.getLast? = some a := by
  have hne : l ≠ [] := by
    rintro rfl
    cases h
  have hdec := List.dropLast_concat_getLast hne
  rw [← hdec] at h
  rcases List.mem_append.mp h with h1 | h1
  · exact Or.inl h1
  · right
    rw [List.getLast?_eq_getLast l hne]
    simp only [List.mem_singleton] at h1
    rw [h1]

theorem firstBad_none_of_trailing :
    ∀ toks : List (List Char), ampTok ∉ toks.dropLast →
      firstBad false toks = none
  | [], _ => rfl
  | [_], _ => rfl
  | t :: t2 :: ts, h => by
    rw [List.dropLast_cons₂, List.mem_cons, not_or] at h
    show firstBad (false || decide (t = ampTok)) (t2 :: ts) = none
    rw [decide_eq_false (fun he => h.1 he.symm), Bool.or_false]
    exact firstBad_none_of_trailing (t2 :: ts) h.2

theorem filter_eq_stageArgs :
    ∀ toks : List (List Char), ampTok ∉ toks.dropLast →
      toks.filter (fun t => decide (t ≠ ampTok)) = stageArgs toks
  | [], _ => rfl
  | [t], _ => by
    by_cases ht : t = ampTok
    · subst ht; rfl
    · simp [stageArgs, List.filter_cons, ht, List.getLast?_singleton]
  | t :: t2 :: ts, h => by
    rw [List.dropLast_cons₂, List.mem_cons, not_or] at h
    have ht : t ≠ ampTok := fun he => h.1 he.symm
    rw [List.filter_cons, if_pos (decide_eq_true ht),
      filter_eq_stageArgs (t2 :: ts) h.2]
    simp only [stageArgs, List.getLast?_cons_cons, List.dropLast_cons₂]
    split
    · rfl
    · rfl

theorem mem_amp_iff_getLast (toks : List (List Char))
    (h : ampTok ∉ toks.dropLast) :
    ampTok ∈ toks ↔ toks.getLast? = some ampTok := by
  constructor
  · intro hm
    rcases mem_dropLast_or_getLast hm with h1 | h1
    · exact absurd h1 h
    · exact h1
  · intro hl
    cases toks with
    | nil => cases hl
    | cons x xs =>
        have hne : (x :: xs : List (List Char)) ≠ [] := by simp
        rw [List.getLast?_eq_getLast _ hne, Option.some.injEq] at hl
        rw [← hl]
        exact List.getLast_mem hne

theorem firstBadStages_none_of_wf :
    ∀ segs : List (List Char), wellFormedSegs segs →
      firstBadStages false segs = none
  | [], _ => rfl
  | [s], h => by
    have h2 := h.2 s rfl
    simp only [firstBadStages, firstBad_none_of_trailing _ h2]
  | s :: s2 :: ss, h => by
    have hs : ampTok ∉ splitSpaces s := by
      apply h.1
      rw [List.dropLast_cons₂]
      exact List.mem_cons_self _ _
    have hs' : ampTok ∉ (splitSpaces s).dropLast := by
      intro hm
      exact hs (List.dropLast_subset _ hm)
    have hwf : wellFormedSegs (s2 :: ss) := by
      constructor
      · intro u hu
        apply h.1
        rw [List.dropLast_cons₂]
        exact List.mem_cons_of_mem _ hu
      · intro u hu
        apply h.2
        rw [List.getLast?_cons_cons]
        exact hu
    simp only [firstBadStages, firstBad_none_of_trailing _ hs',
      decide_eq_false hs, Bool.or_false]
    exact firstBadStages_none_of_wf (s2 :: ss) hwf

theorem stagesBg_eq_lineBg_of_wf :
    ∀ segs : List (List Char), wellFormedSegs segs →
      stagesBg false segs = lineBg segs
  | [], _ => rfl
  | [s], h => by
    have h2 := h.2 s rfl
    simp only [stagesBg, lineBg, List.any_cons, List.any_nil,
      Bool.false_or, Bool.or_false, List.getLast?_singleton]
    exact decide_eq_decide.mpr (mem_amp_iff_getLast _ h2)
  | s :: s2 :: ss, h => by
    have hs : ampTok ∉ splitSpaces s := by
      apply h.1
      rw [List.dropLast_cons₂]
      exact List.mem_cons_self _ _
    have hwf : wellFormedSegs (s2 :: ss) := by
      constructor
      · intro u hu
        apply h.1
        rw [List.dropLast_cons₂]
        exact List.mem_cons_of_mem _ hu
      · intro u hu
        apply h.2
        rw [List.getLast?_cons_cons]
        exact hu
    have ih := stagesBg_eq_lineBg_of_wf (s2 :: ss) hwf
    simp only [stagesBg, List.any_cons, decide_eq_false hs,
      Bool.false_or] at ih ⊢
    rw [show lineBg (s :: s2 :: ss) = lineBg (s2 :: ss) by
      unfold lineBg
      rw [List.getLast?_cons_cons]]
    exact ih

/-! ## Lemmas: the error scan over the flattened token stream -/

theorem firstBad_decomp (t : List Char) (post : List (List Char)) :
    ∀ pre : List (List Char), ampTok ∉ pre →
      firstBad false (pre ++ ampTok :: t :: post) = some t
  | [], _ => by
    show firstBad (false || decide (ampTok = ampTok)) (t :: post) = some t
    rw [decide_eq_true rfl]
    rfl
  | u :: pre, h => by
    rw [List.mem_cons, not_or] at h
    show firstBad (false || decide (u = ampTok)) (pre ++ ampTok :: t :: post)
      = some t
    rw [decide_eq_false (fun he => h.1 he.symm), Bool.or_false]
    exact firstBad_decomp t post pre h.2

theorem firstBad_append_some (ys : List (List Char)) (t : List Char) :
    ∀ (xs : List (List Char)) (b : Bool), firstBad b xs = some t →
      firstBad b (xs ++ ys) = some t
  | [], _, h => by simp [firstBad] at h
  | x :: xs, b, h => by
    cases b with
    | true => exact h
    | false => exact firstBad_append_some ys t xs _ h

theorem firstBad_append_none (ys : List (List Char)) :
    ∀ (xs : List (List Char)) (b : Bool), firstBad b xs = none →
      firstBad b (xs ++ ys) = firstBad (b || decide (ampTok ∈ xs)) ys
  | [], b, _ => by simp [firstBad]
  | x :: xs, b, h => by
    cases b with
    | true => exact absurd h (by simp [firstBad])
    | false =>
        have ih := firstBad_append_none ys xs _ h
        show firstBad (false || decide (x = ampTok)) (xs ++ ys) = _
        rw [ih]
        have hd : (decide (ampTok ∈ x :: xs) : Bool) =
            (decide (x = ampTok) || decide (ampTok ∈ xs)) := by
          by_cases hx : x = ampTok
          · simp [hx]
          · have h2 : ampTok ≠ x := fun he => hx he.symm
            simp [List.mem_cons, hx, h2]
        rw [hd, Bool.false_or, Bool.false_or]

theorem firstBadStages_eq_flatten :
    ∀ (segs : List (List Char)) (b : Bool),
      firstBadStages b segs = firstBad b (segs.map splitSpaces).flatten
  | [], b => rfl
  | s :: ss, b => by
    rw [List.map_cons, List.flatten_cons]
    show (match firstBad b (splitSpaces s) with
      | some t => some t
      | none => firstBadStages (b || decide (ampTok ∈ splitSpaces s)) ss) = _
    cases hfb : firstBad b (splitSpaces s) with
    | some u => exact (firstBad_append_some _ _ _ _ hfb).symm
    | none =>
        rw [firstBad_append_none _ _ _ hfb]
        exact firstBadStages_eq_flatten ss _

/-! ## Claim theorems -/

/-- C1: for every well-formed input line (`&` appears at most once, as the
final token of the final stage), `parse_commands` returns a Pipeline with
exactly one stage per non-empty pipe-separated segment in left-to-right
order, each stage's argument list being the whitespace tokens of its
segment with a trailing `&` excluded, and the background flag set iff the
final token of the line is `&`. -/
theorem claim1_parse_wellformed_line (input : List Char)
    (h : wellFormedSegs (splitPipes input)) :
    parse_commands input =
      .ok ⟨(splitPipes input).map (fun s => ⟨stageArgs (splitSpaces s)⟩),
           lineBg (splitPipes input)⟩ := by
  unfold parse_commands
  rw [parseStages_ok_of_firstBad_none _ false (firstBadStages_none_of_wf _ h)]
  have hmap : (splitPipes input).map
      (fun s => (⟨(splitSpaces s).filter (fun t => decide (t ≠ ampTok))⟩ :
        Command)) =
      (splitPipes input).map (fun s => ⟨stageArgs (splitSpaces s)⟩) := by
    apply List.map_congr_left
    intro s hs
    have htrail : ampTok ∉ (splitSpaces s).dropLast := by
      rcases mem_dropLast_or_getLast hs with h1 | h1
      · intro hm
        exact h.1 s h1 (List.dropLast_subset _ hm)
      · exact h.2 s h1
    rw [filter_eq_stageArgs _ htrail]
  rw [hmap, stagesBg_eq_lineBg_of_wf _ h]

/-- Witness for C1 at the spec's concrete examples `a | b | c` and
`ls -la &`. -/
theorem claim1_witness :
    parse_commands "a | b | c".data =
      .ok ⟨[⟨["a".data]⟩, ⟨["b".data]⟩, ⟨["c".data]⟩], false⟩ ∧
    parse_commands "ls -la &".data =
      .ok ⟨[⟨["ls".data, "-la".data]⟩], true⟩ := by
  constructor
  · rw [claim1_parse_wellformed_line "a | b | c".data (by decide)]
    rfl
  · rw [claim1_parse_wellformed_line "ls -la &".data (by decide)]
    rfl

/-- C2 counterexample: in the line `a & | ` the token `&` occurs in a
non-final stage (the final pipe-separated segment is the all-blank `" "`,
which tokenizes to no tokens), yet `parse_commands` does not fail: it
returns a Pipeline (with a trailing empty stage and the background flag
set) instead of discarding the stages and returning NULL. -/
theorem claim2_counterexample :
    splitPipes "a & | ".data = ["a & ".data, " ".data] ∧
    ampTok ∈ splitSpaces "a & ".data ∧
    splitSpaces " ".data = [] ∧
    parse_commands "a & | ".data = .ok ⟨[⟨["a".data]⟩, ⟨[]⟩], true⟩ := by
  exact ⟨rfl, by decide, rfl, rfl⟩

/-- C2 amended: parsing fails exactly when some token follows a `&` token
in the line's token stream; then all built stages are discarded and the
error names the first token after the first `&` (when nothing follows the
`&` — even with trailing token-free segments — a Pipeline is returned
instead). -/
theorem claim2_amended (input t : List Char) (pre post : List (List Char))
    (hdecomp : ((splitPipes input).map splitSpaces).flatten =
      pre ++ ampTok :: t :: post)
    (hpre : ampTok ∉ pre) :
    parse_commands input = .error t := by
  have h1 : firstBadStages false (splitPipes input) = some t := by
    rw [firstBadStages_eq_flatten, hdecomp]
    exact firstBad_decomp t post pre hpre
  unfold parse_commands
  rw [parseStages_error_of_firstBad t _ false h1]

/-- Witness for C2 at the spec's concrete example `a & | b`: the parse
fails, and the error names the token `b` that followed the `&`. -/
theorem claim2_witness : parse_commands "a & | b".data = .error "b".data :=
  claim2_amended "a & | b".data "b".data ["a".data] [] (by decide) (by decide)

/-- C3: a SIGINT delivered while a foreground job is running (the handler
sees `fg_process` set and a valid `pid`, and the `kill` succeeds) forwards
SIGTERM to the foreground process, waits for it, and unwinds to the
restart checkpoint without terminating the shell; a SIGINT delivered while
idle forwards nothing and still unwinds to the checkpoint instead of
terminating the shell. -/
theorem claim3_sigint (st : ShellSigState) (killOk : Bool) :
    (st.fg_process = true → st.pid ≠ -1 → killOk = true →
      signal_handler SIGINT st killOk = ⟨some st.pid, true, true, false⟩) ∧
    (st.fg_process = false →
      signal_handler SIGINT st killOk = ⟨none, false, true, false⟩) := by
  constructor
  · intro hfg hpid hk
    simp [signal_handler, hfg, hpid, hk]
  · intro hfg
    simp [signal_handler, hfg]

/-- Witness for C3: a foreground state with pid 42, and an idle state. -/
theorem claim3_witness :
    signal_handler SIGINT ⟨true, 42⟩ true = ⟨some 42, true, true, false⟩ ∧
    signal_handler SIGINT ⟨false, -1⟩ true = ⟨none, false, true, false⟩ :=
  ⟨(claim3_sigint ⟨true, 42⟩ true).1 rfl (by decide) rfl,
   (claim3_sigint ⟨false, -1⟩ true).2 rfl⟩

/-- C4: `checkEnv` with no arguments constructs the 3-stage pipeline
`printenv | sort | pager` with background false; with arguments it
constructs the 4-stage pipeline `printenv | grep <args> | sort | pager`
where the grep stage is `"grep"` followed by exactly the given arguments,
with background false. -/
theorem claim4_checkEnv (a0 a1 : List Char) (rest : List (List Char)) :
    (checkEnv_cmd [a0]).cmds.map Command.args =
      [[printenv_s], [sort_s], [pager_s]] ∧
    (checkEnv_cmd [a0]).bg = false ∧
    (checkEnv_cmd (a0 :: a1 :: rest)).cmds.map Command.args =
      [[printenv_s], grep_s :: a1 :: rest, [sort_s], [pager_s]] ∧
    (checkEnv_cmd (a0 :: a1 :: rest)).bg = false :=
  ⟨rfl, rfl, rfl, rfl⟩

/-- C5: `cd` with zero arguments targets `$HOME`; one argument starting
with `~` targets `$HOME` concatenated with the remainder after the `~`;
one other argument is taken literally; two or more arguments give a usage
error with no directory change attempted; a failed `chdir` is reported
and no path of `cd` terminates the shell. -/
theorem claim5_cd (chdirOk : Bool) (home a1 a2 : List Char)
    (rest : List (List Char)) (tl : List Char) :
    cd_cmd chdirOk home ["cd".data] = cd chdirOk home ∧
    (cd chdirOk home).attempted = some home ∧
    cd_cmd chdirOk home ["cd".data, '~' :: tl] = cd chdirOk (home ++ tl) ∧
    (a1.head? ≠ some '~' →
      cd_cmd chdirOk home ["cd".data, a1] = cd chdirOk a1) ∧
    cd_cmd chdirOk home ("cd".data :: a1 :: a2 :: rest) =
      ⟨none, true, EXIT_FAILURE, false⟩ ∧
    (cd chdirOk a1).errorReported = !chdirOk ∧
    (cd chdirOk a1).exitsShell = false := by
  refine ⟨rfl, rfl, rfl, ?_, rfl, rfl, rfl⟩
  intro h1
  cases a1 with
  | nil => rfl
  | cons c tl2 =>
      by_cases hc : c = '~'
      · subst hc
        exact absurd rfl h1
      · show cd_cmd chdirOk home ["cd".data, c :: tl2] = _
        unfold cd_cmd
        simp only [List.drop_succ_cons, List.drop_zero]
        split
        · rename_i tl3 heq
          rw [List.cons.injEq] at heq
          exact absurd heq.1 hc
        · rfl

/-- Witness for C5: concrete home substitution and literal path. -/
theorem claim5_witness :
    cd_cmd true "/home/u".data ["cd".data, '~' :: "/x".data] =
      cd true ("/home/u".data ++ "/x".data) ∧
    cd_cmd true "/home/u".data ["cd".data, "d".data] = cd true "d".data := by
  have h := claim5_cd true "/home/u".data "d".data "e".data [] "/x".data
  exact ⟨h.2.2.1, h.2.2.2.1 (by decide)⟩

/-- C9 counterexample: a `realloc` failure while parsing one input line is
an error condition local to that line's handling, yet the code responds by
terminating the whole shell (`perror("realloc"); exit(EXIT_FAILURE)` in
`parse_commands`), and it is not the signal-registration startup error. -/
theorem claim9_counterexample :
    error_response .reallocFail = .shellExits ∧
    ErrCondition.reallocFail ≠ ErrCondition.sigactionFailStartup :=
  ⟨rfl, by decide⟩

/-- C9 amended: every error condition arising while handling one input
line is local to that pipeline invocation and never terminates the shell,
except the signal-registration failure at startup and a `realloc` failure
during parsing, both of which exit the shell. -/
theorem claim9_amended (e : ErrCondition)
    (h1 : e ≠ .sigactionFailStartup) (h2 : e ≠ .reallocFail) :
    error_response e ≠ .shellExits := by
  cases e <;>
    first
      | exact absurd rfl h1
      | exact absurd rfl h2
      | decide

/-- Witness for C9: a parse error does not terminate the shell. -/
theorem claim9_witness : error_response .parseAmpMisuse ≠ .shellExits :=
  claim9_amended .parseAmpMisuse (by decide) (by decide)

/-- C10: `cd` returns `EXIT_FAILURE` on every path, including a successful
directory change, so the main loop treats it as a failed command
(`fg_process` is cleared) and no elapsed-time report is printed after it. -/
theorem claim10_cd_no_time (chdirOk : Bool) (home : List Char)
    (args : List (List Char)) (bg : Bool) (pid : Int) (we : Bool) (ws : Nat)
    (b a : Timeval) :
    (cd_cmd chdirOk home args).status = EXIT_FAILURE ∧
    fg_after_exec bg (cd_cmd chdirOk home args).status = false ∧
    (fg_wait_report (fg_after_exec bg (cd_cmd chdirOk home args).status)
      pid we ws b a).printedMs = none := by
  have hst : (cd_cmd chdirOk home args).status = EXIT_FAILURE := by
    unfold cd_cmd
    split
    · rfl
    · split
      · rfl
      · split <;> rfl
  refine ⟨hst, ?_, ?_⟩
  · rw [hst]
    simp [fg_after_exec, EXIT_FAILURE, EXIT_SUCCESS]
  · rw [hst]
    simp [fg_after_exec, fg_wait_report, EXIT_FAILURE, EXIT_SUCCESS]

/-- C-style truncating division by 1000 of a value above `-10^6`
stays above `-10^3`. -/
theorem tdiv_thousand_lower (x : Int) (h : -999999 ≤ x) :
    -999 ≤ Int.tdiv x 1000 := by
  rcases le_or_lt 0 x with h0 | h0
  · have := Int.tdiv_nonneg h0 (by norm_num : (0 : Int) ≤ 1000)
    omega
  · have h1 : Int.tdiv x 1000 = -Int.tdiv (-x) 1000 := by
      rw [← Int.neg_tdiv, neg_neg]
    have h2 : Int.tdiv (-x) 1000 = -x / 1000 :=
      Int.tdiv_eq_ediv (by omega) (by norm_num)
    have h3 : -x / 1000 ≤ 999 := by omega
    omega

/-- The elapsed-time value is non-negative whenever the two timestamps are
well-formed `gettimeofday` results in chronological order. -/
theorem time_taken_nonneg (b a : Timeval) (hb : validTimeval b)
    (ha : validTimeval a) (hle : tvLe b a) : 0 ≤ time_taken b a := by
  unfold time_taken
  rcases hle with hs | ⟨hs, hu⟩
  · have h1 : (1 : Int) ≤ a.tv_sec - b.tv_sec := by omega
    have h2 : -999999 ≤ a.tv_usec - b.tv_usec := by
      rcases hb with ⟨hb1, hb2⟩
      rcases ha with ⟨ha1, ha2⟩
      omega
    have h3 := tdiv_thousand_lower (a.tv_usec - b.tv_usec) h2
    have h4 : (1000 : Int) ≤ 1000 * (a.tv_sec - b.tv_sec) := by
      nlinarith
    omega
  · have h1 : 0 ≤ a.tv_usec - b.tv_usec := by omega
    have h2 := Int.tdiv_nonneg h1 (by norm_num : (0 : Int) ≤ 1000)
    have h4 : 1000 * (a.tv_sec - b.tv_sec) = 0 := by
      rw [hs]
      ring
    omega

/-- C6 counterexample: a foreground pipeline whose (normally exited)
process reported a failure status gets no elapsed-time report — the code
deliberately skips the print unless `WIFEXITED` with `EXIT_SUCCESS` — so
the report is not printed after *each* foreground pipeline. -/
theorem claim6_counterexample :
    (fg_wait_report true 42 true EXIT_FAILURE ⟨0, 0⟩ ⟨0, 5000⟩).printedMs =
      none := rfl

/-- C6 amended: after a non-background pipeline the shell waits
specifically on the foreground job's pid; the elapsed-time report, printed
exactly when the waited status shows a normal exit with success, carries
the wall-clock milliseconds from just before spawn to completion, and that
value is non-negative for chronologically ordered `gettimeofday`
results. -/
theorem claim6_amended (pid : Int) (we : Bool) (ws : Nat) (b a : Timeval)
    (hb : validTimeval b) (ha : validTimeval a) (hle : tvLe b a) :
    (fg_wait_report true pid we ws b a).waitTarget = some pid ∧
    ((fg_wait_report true pid we ws b a).printedMs =
        some (time_taken b a) ↔ (we = true ∧ ws = EXIT_SUCCESS)) ∧
    0 ≤ time_taken b a := by
  refine ⟨?_, ⟨?_, ?_⟩, time_taken_nonneg b a hb ha hle⟩
  · unfold fg_wait_report
    rw [if_pos rfl]
    split
    · rfl
    · rfl
  · intro hp
    unfold fg_wait_report at hp
    by_cases hc : (we && decide (ws = EXIT_SUCCESS)) = true
    · constructor
      · exact (Bool.and_eq_true _ _ |>.mp hc).1
      · exact of_decide_eq_true (Bool.and_eq_true _ _ |>.mp hc).2
    · rw [if_pos rfl, if_neg hc] at hp
      cases hp
  · rintro ⟨hwe, hws⟩
    unfold fg_wait_report
    rw [if_pos rfl, if_pos (by rw [hwe, hws]; rfl)]

/-- Witness for C6 at a concrete successful foreground run. -/
theorem claim6_witness :
    (fg_wait_report true 42 true EXIT_SUCCESS ⟨0, 0⟩ ⟨1, 500⟩).waitTarget =
      some 42 ∧
    ((fg_wait_report true 42 true EXIT_SUCCESS ⟨0, 0⟩ ⟨1, 500⟩).printedMs =
        some (time_taken ⟨0, 0⟩ ⟨1, 500⟩) ↔
      (true = true ∧ EXIT_SUCCESS = EXIT_SUCCESS)) ∧
    0 ≤ time_taken ⟨0, 0⟩ ⟨1, 500⟩ :=
  claim6_amended 42 true EXIT_SUCCESS ⟨0, 0⟩ ⟨1, 500⟩ (by decide) (by decide)
    (by decide)

/-- Inversion for a successful parse: the error scan is clean and the
returned Pipeline is determined by the segments. -/
theorem parse_ok_inv (input : List Char) (cl : CommandList)
    (hok : parse_commands input = .ok cl) :
    firstBadStages false (splitPipes input) = none ∧
    cl = ⟨(splitPipes input).map
        (fun s => ⟨(splitSpaces s).filter (fun t => decide (t ≠ ampTok))⟩),
      stagesBg false (splitPipes input)⟩ := by
  cases hfb : firstBadStages false (splitPipes input) with
  | some t =>
      unfold parse_commands at hok
      rw [parseStages_error_of_firstBad t _ false hfb] at hok
      cases hok
  | none =>
      unfold parse_commands at hok
      rw [parseStages_ok_of_firstBad_none _ false hfb] at hok
      exact ⟨rfl, (Except.ok.inj hok).symm⟩

/-- C7 counterexample: the accepted line `&` produces a Pipeline whose
single stage has an empty argument list (`num_args = 0`), violating the
invariant that every stored Command is a non-empty token sequence. -/
theorem claim7_counterexample :
    parse_commands "&".data = .ok ⟨[⟨[]⟩], true⟩ ∧
    (Command.mk []).args.length = 0 :=
  ⟨rfl, rfl⟩

/-- C7 amended: every Command stored in a Pipeline returned by
`parse_commands` is non-empty provided every pipe-separated segment of the
accepted line contains at least one token other than `&`; lines such as a
lone `&`, `a | &` or an all-blank segment instead yield a stage with zero
arguments. -/
theorem claim7_amended (input : List Char) (cl : CommandList)
    (hok : parse_commands input = .ok cl)
    (hseg : ∀ seg ∈ splitPipes input, ∃ t ∈ splitSpaces seg, t ≠ ampTok) :
    ∀ c ∈ cl.cmds, 1 ≤ c.args.length := by
  obtain ⟨-, hcl⟩ := parse_ok_inv input cl hok
  intro c hc
  rw [hcl] at hc
  obtain ⟨s, hs, rfl⟩ := List.mem_map.mp hc
  obtain ⟨t, ht, htne⟩ := hseg s hs
  have hmem : t ∈ (splitSpaces s).filter (fun t => decide (t ≠ ampTok)) :=
    List.mem_filter.mpr ⟨ht, decide_eq_true htne⟩
  simpa using List.length_pos.mpr (List.ne_nil_of_mem hmem)

/-- Witness for C7 at the line `a | b` and its first stage. -/
theorem claim7_witness : 1 ≤ (Command.mk ["a".data]).args.length :=
  claim7_amended "a | b".data ⟨[⟨["a".data]⟩, ⟨["b".data]⟩], false⟩ rfl
    (by decide) ⟨["a".data]⟩ (by decide)

/-! ## Lemmas: tokens of `splitTok`, and the split/join inverse -/

theorem splitTokAux_sound (d : Char) :
    ∀ (l acc : List Char), (∀ c ∈ acc, c ≠ d) →
      ∀ t ∈ splitTokAux d l acc,
        t ≠ [] ∧ ∀ c ∈ t, c ≠ d ∧ (c ∈ l ∨ c ∈ acc)
  | [], acc, hacc, t, ht => by
      unfold splitTokAux at ht
      split at ht
      · cases ht
      · rename_i hne
        rw [List.mem_singleton] at ht
        subst ht
        refine ⟨by simpa using hne, fun c hc => ?_⟩
        rw [List.mem_reverse] at hc
        exact ⟨hacc c hc, Or.inr hc⟩
  | c0 :: cs, acc, hacc, t, ht => by
      unfold splitTokAux at ht
      by_cases hc0 : c0 = d
      · rw [if_pos hc0] at ht
        by_cases haccnil : acc = []
        · rw [if_pos haccnil] at ht
          have h := splitTokAux_sound d cs [] (by simp) t ht
          refine ⟨h.1, fun c hc => ⟨(h.2 c hc).1, ?_⟩⟩
          rcases (h.2 c hc).2 with h1 | h1
          · exact Or.inl (List.mem_cons_of_mem _ h1)
          · cases h1
        · rw [if_neg haccnil, List.mem_cons] at ht
          rcases ht with ht | ht
          · subst ht
            refine ⟨by simpa using haccnil, fun c hc => ?_⟩
            rw [List.mem_reverse] at hc
            exact ⟨hacc c hc, Or.inr hc⟩
          · have h := splitTokAux_sound d cs [] (by simp) t ht
            refine ⟨h.1, fun c hc => ⟨(h.2 c hc).1, ?_⟩⟩
            rcases (h.2 c hc).2 with h1 | h1
            · exact Or.inl (List.mem_cons_of_mem _ h1)
            · cases h1
      · rw [if_neg hc0] at ht
        have hacc2 : ∀ c ∈ c0 :: acc, c ≠ d := by
          intro c hc
          rcases List.mem_cons.mp hc with h1 | h1
          · rw [h1]; exact hc0
          · exact hacc c h1
        have h := splitTokAux_sound d cs (c0 :: acc) hacc2 t ht
        refine ⟨h.1, fun c hc => ⟨(h.2 c hc).1, ?_⟩⟩
        rcases (h.2 c hc).2 with h1 | h1
        · exact Or.inl (List.mem_cons_of_mem _ h1)
        · rcases List.mem_cons.mp h1 with h2 | h2
          · rw [h2]; exact Or.inl (List.mem_cons_self _ _)
          · exact Or.inr h2

/-- Every token produced by `splitTok` is non-empty, free of the
delimiter, and drawn from the input's characters. -/
theorem splitTok_sound (d : Char) (l : List Char) :
    ∀ t ∈ splitTok d l, t ≠ [] ∧ ∀ c ∈ t, c ≠ d ∧ c ∈ l := by
  intro t ht
  have h := splitTokAux_sound d l [] (by simp) t ht
  refine ⟨h.1, fun c hc => ⟨(h.2 c hc).1, ?_⟩⟩
  rcases (h.2 c hc).2 with h1 | h1
  · exact h1
  · cases h1

theorem splitTokAux_token (d : Char) :
    ∀ (t acc r : List Char), (∀ c ∈ t, c ≠ d) → (t ≠ [] ∨ acc ≠ []) →
      splitTokAux d (t ++ d :: r) acc =
        (acc.reverse ++ t) :: splitTokAux d r []
  | [], acc, r, _, hne => by
      rcases hne with h | h
      · exact absurd rfl h
      · show splitTokAux d (d :: r) acc = _
        simp only [splitTokAux, if_true]
        rw [if_neg h]
        simp
  | c0 :: t, acc, r, hch, _ => by
      show splitTokAux d (c0 :: (t ++ d :: r)) acc = _
      simp only [splitTokAux]
      rw [if_neg (hch c0 (List.mem_cons_self _ _))]
      rw [splitTokAux_token d t (c0 :: acc) r
        (fun c hc => hch c (List.mem_cons_of_mem _ hc)) (Or.inr (by simp))]
      simp

theorem splitTokAux_last (d : Char) :
    ∀ (t acc : List Char), (∀ c ∈ t, c ≠ d) → (t ≠ [] ∨ acc ≠ []) →
      splitTokAux d t acc = [acc.reverse ++ t]
  | [], acc, _, hne => by
      rcases hne with h | h
      · exact absurd rfl h
      · simp only [splitTokAux]
        rw [if_neg h]
        simp
  | c0 :: t, acc, hch, _ => by
      simp only [splitTokAux]
      rw [if_neg (hch c0 (List.mem_cons_self _ _))]
      rw [splitTokAux_last d t (c0 :: acc)
        (fun c hc => hch c (List.mem_cons_of_mem _ hc)) (Or.inr (by simp))]
      simp

theorem splitTok_token_cons (d : Char) (t r : List Char)
    (hch : ∀ c ∈ t, c ≠ d) (hne : t ≠ []) :
    splitTok d (t ++ d :: r) = t :: splitTok d r := by
  unfold splitTok
  rw [splitTokAux_token d t [] r hch (Or.inl hne)]
  simp

theorem splitTok_single (d : Char) (t : List Char)
    (hch : ∀ c ∈ t, c ≠ d) (hne : t ≠ []) :
    splitTok d t = [t] := by
  unfold splitTok
  rw [splitTokAux_last d t [] hch (Or.inl hne)]
  simp

/-- Splitting undoes joining, for non-empty delimiter-free pieces. -/
theorem splitTok_joinSep (d : Char) :
    ∀ ts : List (List Char), (∀ t ∈ ts, t ≠ [] ∧ ∀ c ∈ t, c ≠ d) →
      splitTok d (joinSep d ts) = ts
  | [], _ => rfl
  | [t], h => by
      show splitTok d t = [t]
      exact splitTok_single d t (h t (List.mem_cons_self _ _)).2
        (h t (List.mem_cons_self _ _)).1
  | t :: t2 :: ts, h => by
      show splitTok d (t ++ d :: joinSep d (t2 :: ts)) = _
      rw [splitTok_token_cons d t _ (h t (List.mem_cons_self _ _)).2
        (h t (List.mem_cons_self _ _)).1]
      rw [splitTok_joinSep d (t2 :: ts)
        (fun u hu => h u (List.mem_cons_of_mem _ hu))]

theorem mem_joinSep (d : Char) :
    ∀ (ts : List (List Char)) (c : Char), c ∈ joinSep d ts →
      c = d ∨ ∃ t ∈ ts, c ∈ t
  | [], _, h => by cases h
  | [t], c, h => Or.inr ⟨t, List.mem_cons_self _ _, h⟩
  | t :: t2 :: ts, c, h => by
      have h2 : c ∈ t ++ d :: joinSep d (t2 :: ts) := h
      rcases List.mem_append.mp h2 with h1 | h1
      · exact Or.inr ⟨t, List.mem_cons_self _ _, h1⟩
      · rcases List.mem_cons.mp h1 with h3 | h3
        · exact Or.inl h3
        · rcases mem_joinSep d (t2 :: ts) c h3 with h4 | ⟨u, hu, hcu⟩
          · exact Or.inl h4
          · exact Or.inr ⟨u, List.mem_cons_of_mem _ hu, hcu⟩

theorem joinSep_ne_nil (d : Char) :
    ∀ ts : List (List Char), ts ≠ [] → (∀ t ∈ ts, t ≠ []) →
      joinSep d ts ≠ []
  | [], h, _ => absurd rfl h
  | [t], _, h => by
      show t ≠ []
      exact h t (List.mem_cons_self _ _)
  | t :: t2 :: ts, _, _ => by
      show t ++ d :: joinSep d (t2 :: ts) ≠ []
      simp

theorem getLast?_mem {α : Type} {l : List α} {a : α}
    (h : l.getLast? = some a) : a ∈ l := by
  cases l with
  | nil => cases h
  | cons x xs =>
      have hne : (x :: xs : List α) ≠ [] := by simp
      rw [List.getLast?_eq_getLast _ hne, Option.some.injEq] at h
      rw [← h]
      exact List.getLast_mem hne

theorem wf_of_no_amp (segs : List (List Char))
    (h : ∀ s ∈ segs, ampTok ∉ splitSpaces s) : wellFormedSegs segs :=
  ⟨fun s hs => h s (List.dropLast_subset _ hs),
   fun s hs hm => h s (getLast?_mem hs) (List.dropLast_subset _ hm)⟩

theorem stagesBg_false_of_no_amp (segs : List (List Char))
    (h : ∀ s ∈ segs, ampTok ∉ splitSpaces s) : stagesBg false segs = false := by
  unfold stagesBg
  rw [Bool.false_or, List.any_eq_false]
  intro s hs
  simpa using h s hs

/-- C8 counterexample: the line `a | | b` is free of `&` and is accepted
(with an empty middle stage), but serializing the result and re-parsing
loses the empty stage: the round trip returns 2 stages instead of 3, so
the structures differ. -/
theorem claim8_counterexample :
    ('&' ∉ "a | | b".data) ∧
    parse_commands "a | | b".data =
      .ok ⟨[⟨["a".data]⟩, ⟨[]⟩, ⟨["b".data]⟩], false⟩ ∧
    unparse ⟨[⟨["a".data]⟩, ⟨[]⟩, ⟨["b".data]⟩], false⟩ = "a||b".data ∧
    parse_commands "a||b".data =
      .ok ⟨[⟨["a".data]⟩, ⟨["b".data]⟩], false⟩ ∧
    (⟨[⟨["a".data]⟩, ⟨["b".data]⟩], false⟩ : CommandList) ≠
      ⟨[⟨["a".data]⟩, ⟨[]⟩, ⟨["b".data]⟩], false⟩ :=
  ⟨by decide, rfl, rfl, rfl, by decide⟩

/-- C8 amended: for every input line free of embedded `&` that
`parse_commands` accepts and in which every pipe-separated segment
contains at least one token, serializing the resulting Pipeline
(arguments joined by spaces, stages joined by the pipe character) and
re-parsing yields the identical Pipeline: same stage count, same argument
lists, same background flag. -/
theorem claim8_amended (input : List Char) (cl : CommandList)
    (hok : parse_commands input = .ok cl)
    (hne : ∀ seg ∈ splitPipes input, splitSpaces seg ≠ [])
    (hamp : ∀ seg ∈ splitPipes input, ampTok ∉ splitSpaces seg) :
    parse_commands (unparse cl) = .ok cl := by
  obtain ⟨-, hcl⟩ := parse_ok_inv input cl hok
  have hfilter : ∀ seg ∈ splitPipes input,
      (splitSpaces seg).filter (fun t => decide (t ≠ ampTok)) =
        splitSpaces seg := by
    intro seg hs
    rw [List.filter_eq_self]
    intro t ht
    exact decide_eq_true (fun he => hamp seg hs (he ▸ ht))
  have hcmds : cl.cmds =
      (splitPipes input).map (fun s => ⟨splitSpaces s⟩) := by
    rw [hcl]
    exact List.map_congr_left (fun s hs => by rw [hfilter s hs])
  have hbg : cl.bg = false := by
    rw [hcl]
    exact stagesBg_false_of_no_amp _ hamp
  have hunparse : unparse cl = joinSep '|'
      ((splitPipes input).map (fun s => joinSep ' ' (splitSpaces s))) := by
    unfold unparse
    rw [hcmds, List.map_map]
    rfl
  have hsp : splitPipes (unparse cl) =
      (splitPipes input).map (fun s => joinSep ' ' (splitSpaces s)) := by
    rw [hunparse]
    apply splitTok_joinSep
    intro u hu
    obtain ⟨s, hs, rfl⟩ := List.mem_map.mp hu
    constructor
    · apply joinSep_ne_nil ' ' _ (hne s hs)
      intro t ht
      exact (splitTok_sound ' ' s t ht).1
    · intro c hc
      rcases mem_joinSep ' ' _ c hc with h1 | ⟨t, ht, hct⟩
      · rw [h1]
        decide
      · have hcs : c ∈ s := ((splitTok_sound ' ' s t ht).2 c hct).2
        exact ((splitTok_sound '|' input s hs).2 c hcs).1
  have hss : ∀ s ∈ splitPipes input,
      splitSpaces (joinSep ' ' (splitSpaces s)) = splitSpaces s := by
    intro s hs
    apply splitTok_joinSep
    intro t ht
    exact ⟨(splitTok_sound ' ' s t ht).1,
      fun c hc => ((splitTok_sound ' ' s t ht).2 c hc).1⟩
  have hampnew : ∀ s2 ∈ splitPipes (unparse cl),
      ampTok ∉ splitSpaces s2 := by
    rw [hsp]
    intro s2 hs2
    obtain ⟨s, hs, rfl⟩ := List.mem_map.mp hs2
    rw [hss s hs]
    exact hamp s hs
  have hnone := firstBadStages_none_of_wf _ (wf_of_no_amp _ hampnew)
  unfold parse_commands
  rw [parseStages_ok_of_firstBad_none _ false hnone]
  have h1 : (splitPipes (unparse cl)).map
      (fun s2 => (⟨(splitSpaces s2).filter (fun t => decide (t ≠ ampTok))⟩ :
        Command)) = cl.cmds := by
    rw [hsp, List.map_map, hcmds]
    apply List.map_congr_left
    intro s hs
    show Command.mk ((splitSpaces (joinSep ' ' (splitSpaces s))).filter
      (fun t => decide (t ≠ ampTok))) = ⟨splitSpaces s⟩
    rw [hss s hs, hfilter s hs]
  have h2 : stagesBg false (splitPipes (unparse cl)) = cl.bg := by
    rw [hbg]
    exact stagesBg_false_of_no_amp _ hampnew
  rw [h1, h2]

/-- Witness for C8 at the concrete line `a b|c`. -/
theorem claim8_witness :
    parse_commands "a b|c".data =
      .ok ⟨[⟨["a".data, "b".data]⟩, ⟨["c".data]⟩], false⟩ ∧
    parse_commands
        (unparse ⟨[⟨["a".data, "b".data]⟩, ⟨["c".data]⟩], false⟩) =
      .ok ⟨[⟨["a".data, "b".data]⟩, ⟨["c".data]⟩], false⟩ :=
  ⟨rfl, claim8_amended "a b|c".data
    ⟨[⟨["a".data, "b".data]⟩, ⟨["c".data]⟩], false⟩ rfl (by decide)
    (by decide)⟩

end Smsh
